import Mathlib

/-!
Shallow embedding of `src/main.rs` of the `pdu` disk-usage reporter.

The program reads the immediate children of a directory
(`get_data_from_directory`), computes each child's size (direct metadata
length for files, recursive file-size sum via `get_size_of_directory` for
directories), appends a synthetic `Total` row, sorts by size and prints a
three-cell row per entry (`print_data`), with sizes rendered by
`PathData::get_human_readable_size`.

Modelling decisions, stated once here:

* `u64` values are `Nat`; the two `u64` additions in the source
  (`total_size += size` and `Iterator::sum::<u64>()`) are modelled with
  wraparound as `(a + b) % 2 ^ 64` (release-mode Rust semantics).
* The filesystem is a snapshot: a `metadata()` call on one entry returns
  the same `Except` result each time it is repeated (the source calls
  `file.metadata()?` up to three times on the same entry; the model binds
  the same fixed value three times).
* `get_size_of_directory` consumes the stream produced by
  `walkdir::WalkDir::new(root).into_iter()`: a list of walk results, each
  carrying its own `metadata()` result.  Per the walkdir documentation the
  walk yields the root path itself first (depth 0), then all descendants
  in depth-first order; `walkT` below realises that stream for an
  error-free filesystem tree.
* `get_human_readable_size` computes with `f64` in the source.  Every
  division performed there is by `1024.0`, which is exact in binary
  floating point (it only decrements the exponent; no underflow is
  possible for the magnitudes involved, and `size as f64` is exact for
  `size < 2 ^ 53`).  The model therefore keeps the running value `out`
  exactly, as the pair `(size, k)` with `out = size / 1024 ^ k`; the
  comparison `out < 1024.0` becomes `size < 1024 ^ (k + 1)`.  The final
  `format!("{:.3} {}", out, suffix)` renders the value rounded to three
  decimal places (ties to even, Rust float formatting), with the
  fractional part zero-padded to width 3; `format3` below renders exactly
  that from the pair.
-/

/-- Bound of the `u64` type: sizes and size sums live below `2 ^ 64`. -/
def U64MOD : Nat := 2 ^ 64

/-- Wrapping `u64` addition, used for `total_size += size` and for
`Iterator::sum::<u64>()`. -/
def u64add (a b : Nat) : Nat := (a + b) % U64MOD

/-- Models `std::ffi::OsString`: either a valid UTF-8 string or a byte
sequence that is not valid UTF-8. -/
inductive OsStr where
  | utf8 (s : String)
  | invalid (bytes : List Nat)
deriving DecidableEq

/-- Models `OsStr::to_str`: succeeds exactly on valid UTF-8 names. -/
def OsStr.to_str : OsStr → Option String
  | .utf8 s => some s
  | .invalid _ => none

/-- Models the part of `std::fs::Metadata` the program reads: the file-type
tests `is_dir()` / `is_file()` and the byte length `len()`.  For an entry
that is neither a regular file nor a directory (symlink, device, socket,
...) both flags are false. -/
structure Metadata where
  is_dir : Bool
  is_file : Bool
  len : Nat
deriving DecidableEq

/-- Models `std::io::Error`; only its identity matters to the program. -/
abbrev IOErr := String

/-- The `PathData` struct of the source: one reportable row. -/
structure PathData where
  size : Nat
  name : OsStr
  icon : String
deriving DecidableEq

/-- The unit ladder the source iterates over
(`vec!["B", "KiB", "MiB", "GiB", "TiB", "PiB", "EiB", "ZiB"]`). -/
def unitLadder : List String := ["B", "KiB", "MiB", "GiB", "TiB", "PiB", "EiB", "ZiB"]

/-- The `for unit in ...` loop of `get_human_readable_size`: starting from
`suffix = "YiB"`, walk the unit list; stop at the first unit for which the
running value `out = size / 1024 ^ k` is below 1024 (that is,
`size < 1024 ^ (k + 1)`), otherwise divide by 1024 once more (`k + 1`) and
continue.  Returns the divisor exponent and the chosen suffix. -/
def pickUnit (size : Nat) : Nat → List String → Nat × String
  | _, [] => (8, "YiB")
  | k, u :: rest => if size < 1024 ^ (k + 1) then (k, u) else pickUnit size (k + 1) rest

/-- Rounds `num / den` to the nearest integer, ties to even — the rounding
Rust float formatting applies to the exact value when rendering `{:.3}`.
Requires `den > 0` to be meaningful. -/
def roundHalfEvenDiv (num den : Nat) : Nat :=
  let q := num / den
  let r := num % den
  if 2 * r < den then q
  else if den < 2 * r then q + 1
  else if q % 2 = 0 then q else q + 1

/-- The decimal digit character for `d % 10`. -/
def digitChar (d : Nat) : Char := Char.ofNat (48 + d % 10)

/-- Decimal digits of `n`, least significant first, with an explicit fuel
argument (structural recursion; `fuel ≥ n` is always enough since a number
has no more digits than its own value). -/
def natDigitsRevFuel : Nat → Nat → List Char
  | _, 0 => []
  | 0, _+1 => []
  | fuel+1, n+1 => digitChar (n + 1) :: natDigitsRevFuel fuel ((n + 1) / 10)

/-- Decimal rendering of a natural number, as Rust integer formatting
produces it: `"0"` for zero, otherwise the digits most significant first
with no leading zeros. -/
def natRepr (n : Nat) : String :=
  if n = 0 then "0" else String.mk (natDigitsRevFuel n n).reverse

/-- The fractional part of a `{:.3}` rendering: exactly three digits,
zero-padded.  Meaningful for `r < 1000`. -/
def pad3 (r : Nat) : String :=
  String.mk [digitChar (r / 100), digitChar (r / 10), digitChar r]

/-- The `format!("{:.3}", out)` part of `get_human_readable_size`, where
`out = size / 1024 ^ k` exactly: the value times 1000 is rounded to the
nearest integer (ties to even) and printed as integer part, a dot, and a
three-digit zero-padded fractional part. -/
def format3 (size k : Nat) : String :=
  let m := roundHalfEvenDiv (size * 1000) (1024 ^ k)
  natRepr (m / 1000) ++ "." ++ pad3 (m % 1000)

/-- Models `PathData::get_human_readable_size` as a function of the one
field it reads, `self.size`: pick the unit by repeated division by 1024,
then render the remaining value with three decimal places followed by a
space and the suffix. -/
def get_human_readable_size (size : Nat) : String :=
  let p := pickUnit size 0 unitLadder
  format3 size p.1 ++ " " ++ p.2

/-- Models `walkdir::WalkDir::new(root).into_iter()` output consumed by
`get_size_of_directory`: each item is a walk result (`Err` when the walk
could not read the entry), and a successful item carries in turn the
result of its `metadata()` call. -/
abbrev WalkItem := Except IOErr (Except IOErr Metadata)

/-- The `get_size_of_directory` function of the source, as a function of
the walk stream it consumes: drop walk errors (`filter_map(|f| f.ok())`),
drop metadata errors (`filter_map(|f| f.metadata().ok())`), keep regular
files (`filter(|m| m.is_file())`), take their lengths and sum them as
`u64`. -/
def get_size_of_directory (walk : List WalkItem) : Nat :=
  ((((walk.filterMap Except.toOption).filterMap Except.toOption).filter
      (fun m => m.is_file)).map Metadata.len).foldl u64add 0

deriving instance DecidableEq for Except

/-- Models the `std::fs::DirEntry` values yielded while iterating the
target directory: the entry name (`file_name()`), the fixed result of its
`metadata()` call, and the walk stream that `WalkDir::new(file.path())`
would yield if the program descends into it. -/
structure DirEntry where
  file_name : OsStr
  metadata : Except IOErr Metadata
  walk : List WalkItem
deriving DecidableEq

/-- The body of the `for file in ...` loop of `get_data_from_directory`,
acting on the accumulator (entries pushed so far, running `total_size`).
Each `file.metadata()?` of the source is one match that early-returns the
error (the `?` operator); a directory child is sized with
`get_size_of_directory`, a file child with `metadata().len()`, and a child
that is neither is skipped. -/
def get_data_loop_body (acc : List PathData × Nat) (file : DirEntry) :
    Except IOErr (List PathData × Nat) :=
  match file.metadata with
  | .error e => .error e
  | .ok m1 =>
    if m1.is_dir then
      let size := get_size_of_directory file.walk
      .ok (acc.1 ++ [⟨size, file.file_name, " "⟩], u64add acc.2 size)
    else
      match file.metadata with
      | .error e => .error e
      | .ok m2 =>
        if m2.is_file then
          match file.metadata with
          | .error e => .error e
          | .ok m3 => .ok (acc.1 ++ [⟨m3.len, file.file_name, " "⟩], u64add acc.2 m3.len)
        else
          .ok acc

/-- The `get_data_from_directory` function of the source, as a function of
the outcome of `dir.read_dir()`: a failure to open the directory is
propagated by `?`; otherwise the iterator items that are `Err` are dropped
(`filter_map(|f| f.ok())`), the loop body runs over the remaining entries,
and finally the synthetic `Total` row carrying the accumulated
`total_size` is appended. -/
def get_data_from_directory (read_dir : Except IOErr (List (Except IOErr DirEntry))) :
    Except IOErr (List PathData) :=
  match read_dir with
  | .error e => .error e
  | .ok rd =>
    match (rd.filterMap Except.toOption).foldlM get_data_loop_body ([], 0) with
    | .error e => .error e
    | .ok st => .ok (st.1 ++ [⟨st.2, OsStr.utf8 ("Total"), ""⟩])

/-- One step of the stable insertion sort modelling `Vec::sort_by_key`:
insert `x` in front of the first element whose key is not smaller, so that
an element keeps its place ahead of equal-keyed elements that followed it
in the input. -/
def insertByKey (x : PathData) : List PathData → List PathData
  | [] => [x]
  | y :: ys => if x.size ≤ y.size then x :: y :: ys else y :: insertByKey x ys

/-- Models `data.sort_by_key(|k| k.size)` of `print_data`.  The source
calls the standard library sort, whose documented contract is a stable
sort by the key; stable insertion sort produces the unique output that
contract allows. -/
def sort_by_key : List PathData → List PathData
  | [] => []
  | x :: xs => insertByKey x (sort_by_key xs)

/-- The three grid cells `print_data` adds for one entry: the icon, the
name rendered with `to_str().unwrap_or("???")`, and the human-readable
size. -/
def print_row (d : PathData) : List String :=
  [d.icon, (d.name.to_str).getD ("???"), get_human_readable_size d.size]

/-- The `print_data` function of the source up to the external grid
layout: sort the entries in place by size, then emit the three cells of
each entry in order.  The `term_grid` rendering of those cells is the
external collaborator and is not modelled. -/
def print_data (data : List PathData) : List (List String) :=
  (sort_by_key data).map print_row

/- Filesystem snapshot tree for the error-free walk: a regular file with
its byte length, a directory with its own reported length (the per-folder
block size some filesystems report, e.g. 4096) and its children, or an
entry that is neither (symlink, device, ...) with whatever length its
metadata reports. -/
mutual
inductive FsTree where
  | file (len : Nat)
  | dir (len : Nat) (children : FsForest)
  | special (len : Nat)
inductive FsForest where
  | nil
  | cons (hd : FsTree) (tl : FsForest)
end

/-- The metadata the filesystem reports for the root of a tree. -/
def FsTree.metadataOf : FsTree → Metadata
  | .file l => ⟨false, true, l⟩
  | .dir l _ => ⟨true, false, l⟩
  | .special l => ⟨false, false, l⟩

/- Models the stream `walkdir::WalkDir::new(root)` yields on an
error-free filesystem: the root itself first (depth 0, per the walkdir
documentation), then the descendants in depth-first order. -/
mutual
def walkT : FsTree → List Metadata
  | .file l => [FsTree.metadataOf (.file l)]
  | .dir l cs => FsTree.metadataOf (.dir l cs) :: walkF cs
  | .special l => [FsTree.metadataOf (.special l)]
def walkF : FsForest → List Metadata
  | .nil => []
  | .cons t r => walkT t ++ walkF r
end

/-- The walk stream of an error-free tree, in the item type
`get_size_of_directory` consumes: every entry and every metadata read
succeeds. -/
def walkItems (t : FsTree) : List WalkItem :=
  (walkT t).map (fun m => Except.ok (Except.ok m))

/-- The `aggregate` contract of the spec instantiated on the code:
`get_size_of_directory` applied to the walk stream of the given tree. -/
def aggregate (root : FsTree) : Nat :=
  get_size_of_directory (walkItems root)

/- Modelled from the spec (section 4.1 and section 8): the sum of the
byte lengths of every regular file transitively contained in a tree;
directories and special entries contribute nothing.  This is the
specification-side definition `aggregate` is compared against. -/
mutual
def specFileSum : FsTree → Nat
  | .file l => l
  | .dir _ cs => specFileSumF cs
  | .special _ => 0
def specFileSumF : FsForest → Nat
  | .nil => 0
  | .cons t r => specFileSum t + specFileSumF r
end


/-! ## Arithmetic helpers -/

theorem U64MOD_pos : 0 < U64MOD := by decide

theorem foldl_u64add (l : List Nat) : ∀ a : Nat, a < U64MOD →
    l.foldl u64add a = (a + l.sum) % U64MOD := by
  induction l with
  | nil => intro a ha; simp [Nat.mod_eq_of_lt ha]
  | cons x xs ih =>
    intro a ha
    simp only [List.foldl_cons, List.sum_cons]
    rw [ih (u64add a x) (Nat.mod_lt _ U64MOD_pos)]
    unfold u64add
    rw [Nat.mod_add_mod, Nat.add_assoc]

/-- The lengths of the regular files that survive the error filtering of a
walk stream. -/
def okFileLens (walk : List WalkItem) : List Nat :=
  (((walk.filterMap Except.toOption).filterMap Except.toOption).filter
      (fun m => m.is_file)).map Metadata.len

theorem get_size_eq_sum (walk : List WalkItem) :
    get_size_of_directory walk = (okFileLens walk).sum % U64MOD := by
  unfold get_size_of_directory okFileLens
  simpa using foldl_u64add _ 0 U64MOD_pos

/-! ## SizeAggregator error policy (claim C6) -/

/-- C6: `get_size_of_directory` is total — it always returns a `u64`
value and surfaces no error — and every walk item that errored out, either
at the walk step or at its metadata read, is silently dropped from the
sum: removing such an item from the stream does not change the result. -/
theorem get_size_skips_errors :
    (∀ (pre post : List WalkItem) (e : IOErr),
        get_size_of_directory (pre ++ Except.error e :: post)
          = get_size_of_directory (pre ++ post))
    ∧ (∀ (pre post : List WalkItem) (e : IOErr),
        get_size_of_directory (pre ++ Except.ok (Except.error e) :: post)
          = get_size_of_directory (pre ++ post))
    ∧ (∀ walk : List WalkItem, get_size_of_directory walk < U64MOD) := by
  refine ⟨?_, ?_, ?_⟩
  · intro pre post e
    rw [get_size_eq_sum, get_size_eq_sum]
    unfold okFileLens
    simp [List.filterMap_append, Except.toOption]
  · intro pre post e
    rw [get_size_eq_sum, get_size_eq_sum]
    unfold okFileLens
    simp [List.filterMap_append, Except.toOption]
  · intro walk
    rw [get_size_eq_sum]
    exact Nat.mod_lt _ U64MOD_pos

/-! ## Aggregation over an error-free tree (claims C2, C5) -/

mutual
theorem walkT_fileSum : ∀ t : FsTree,
    (((walkT t).filter (fun m => m.is_file)).map Metadata.len).sum = specFileSum t
  | .file l => by simp [walkT, FsTree.metadataOf, specFileSum]
  | .dir l cs => by
    simp [walkT, FsTree.metadataOf, specFileSum, walkF_fileSum cs]
  | .special l => by simp [walkT, FsTree.metadataOf, specFileSum]
theorem walkF_fileSum : ∀ f : FsForest,
    (((walkF f).filter (fun m => m.is_file)).map Metadata.len).sum = specFileSumF f
  | .nil => by simp [walkF, specFileSumF]
  | .cons t r => by
    simp [walkF, specFileSumF, List.filter_append, walkT_fileSum t, walkF_fileSum r]
end

theorem filterMap_toOption_ok_ok (L : List Metadata) :
    (((L.map (fun m => (Except.ok (Except.ok m) : WalkItem))).filterMap
        Except.toOption).filterMap Except.toOption) = L := by
  induction L with
  | nil => rfl
  | cons m L ih =>
    simp only [List.map_cons, List.filterMap_cons, Except.toOption]
    rw [ih]

theorem aggregate_eq (t : FsTree) : aggregate t = specFileSum t % U64MOD := by
  unfold aggregate
  rw [get_size_eq_sum]
  unfold okFileLens walkItems
  rw [filterMap_toOption_ok_ok, walkT_fileSum]

/-- C2: on any directory whose total file size fits in a `u64`,
`aggregate` (the composition of `get_size_of_directory` with the walk
stream of the tree) returns exactly the sum of the byte lengths of every
regular file transitively contained in it; directory and special entries,
whatever lengths their metadata report, contribute nothing. -/
theorem aggregate_eq_specFileSum (len : Nat) (cs : FsForest)
    (h : specFileSum (.dir len cs) < U64MOD) :
    aggregate (.dir len cs) = specFileSum (.dir len cs) := by
  rw [aggregate_eq, Nat.mod_eq_of_lt h]

/-- Witness for `aggregate_eq_specFileSum`: a directory holding a 500-byte
file, a 7-byte special entry and a subdirectory with a 2000-byte file. -/
theorem aggregate_eq_specFileSum_witness :
    aggregate (.dir 4096 (.cons (.file 500) (.cons (.special 7)
        (.cons (.dir 4096 (.cons (.file 2000) .nil)) .nil))))
      = specFileSum (.dir 4096 (.cons (.file 500) (.cons (.special 7)
        (.cons (.dir 4096 (.cons (.file 2000) .nil)) .nil)))) :=
  aggregate_eq_specFileSum 4096 (.cons (.file 500) (.cons (.special 7)
    (.cons (.dir 4096 (.cons (.file 2000) .nil)) .nil))) (by decide)

/-- C5 counterexample: on a path referencing a regular file the walk
yields the file itself (depth 0), so `aggregate` returns its byte length,
not 0: at a 500-byte file it returns 500. -/
theorem aggregate_file_root_cex :
    aggregate (FsTree.file 500) = 500 ∧ aggregate (FsTree.file 500) ≠ 0 := by
  decide

/-- C5 amended: for an input path referencing a non-directory, `aggregate`
returns the entry's own byte length if it is a regular file (the walk
yields the root itself), and 0 if it is neither file nor directory. -/
theorem aggregate_non_directory_amended :
    (∀ l : Nat, l < U64MOD → aggregate (FsTree.file l) = l)
    ∧ (∀ l : Nat, aggregate (FsTree.special l) = 0) := by
  constructor
  · intro l hl
    rw [aggregate_eq]
    simp only [specFileSum]
    exact Nat.mod_eq_of_lt hl
  · intro l
    rw [aggregate_eq]
    simp [specFileSum]

/-- Witness for `aggregate_non_directory_amended` at a 500-byte file. -/
theorem aggregate_non_directory_amended_witness :
    aggregate (FsTree.file 500) = 500 :=
  aggregate_non_directory_amended.1 500 (by decide)

/-! ## ReportBuilder structure (claims C1, C3) -/

theorem loop_ok_structure :
    ∀ (entries : List DirEntry) (data0 : List PathData) (tot0 : Nat)
      (data : List PathData) (tot : Nat), tot0 < U64MOD →
      List.foldlM get_data_loop_body (data0, tot0) entries = Except.ok (data, tot) →
      ∃ pushed : List PathData,
        data = data0 ++ pushed ∧ (∀ e ∈ pushed, e.icon = " ")
          ∧ tot = (tot0 + (pushed.map PathData.size).sum) % U64MOD := by
  intro entries
  induction entries with
  | nil =>
    intro data0 tot0 data tot h0 h
    simp only [List.foldlM, pure, Except.pure, Except.ok.injEq, Prod.mk.injEq] at h
    exact ⟨[], by simp [h.1.symm], by simp, by simp [h.2.symm, Nat.mod_eq_of_lt h0]⟩
  | cons x xs ih =>
    intro data0 tot0 data tot h0 h
    simp only [List.foldlM] at h
    rcases hm : x.metadata with e | m
    · simp [get_data_loop_body, hm, Bind.bind, Except.bind] at h
    · cases hd : m.is_dir with
      | true =>
        simp only [get_data_loop_body, hm, hd, if_true, Bind.bind, Except.bind] at h
        obtain ⟨pushed, h1, h2, h3⟩ :=
          ih _ _ _ _ (by unfold u64add; exact Nat.mod_lt _ U64MOD_pos) h
        refine ⟨⟨get_size_of_directory x.walk, x.file_name, " "⟩ :: pushed, ?_, ?_, ?_⟩
        · rw [h1]; simp
        · intro e he
          rcases List.mem_cons.mp he with h4 | h4
          · rw [h4]
          · exact h2 e h4
        · rw [h3]
          unfold u64add
          rw [Nat.mod_add_mod]
          simp [Nat.add_assoc]
      | false =>
        cases hf : m.is_file with
        | true =>
          simp only [get_data_loop_body, hm, hd, hf, Bool.false_eq_true, if_false, if_true,
            Bind.bind, Except.bind] at h
          obtain ⟨pushed, h1, h2, h3⟩ :=
            ih _ _ _ _ (by unfold u64add; exact Nat.mod_lt _ U64MOD_pos) h
          refine ⟨⟨m.len, x.file_name, " "⟩ :: pushed, ?_, ?_, ?_⟩
          · rw [h1]; simp
          · intro e he
            rcases List.mem_cons.mp he with h4 | h4
            · rw [h4]
            · exact h2 e h4
          · rw [h3]
            unfold u64add
            rw [Nat.mod_add_mod]
            simp [Nat.add_assoc]
        | false =>
          simp only [get_data_loop_body, hm, hd, hf, Bool.false_eq_true, if_false,
            Bind.bind, Except.bind] at h
          exact ih _ _ _ _ h0 h

theorem get_data_ok_eq (items : List (Except IOErr DirEntry)) :
    get_data_from_directory (.ok items)
      = match (items.filterMap Except.toOption).foldlM get_data_loop_body ([], 0) with
        | .error e => .error e
        | .ok st => .ok (st.1 ++ [⟨st.2, OsStr.utf8 ("Total"), ""⟩]) := rfl

theorem get_data_ok_structure (items : List (Except IOErr DirEntry))
    (data : List PathData)
    (h : get_data_from_directory (.ok items) = .ok data) :
    ∃ rest : List PathData,
      data = rest ++ [⟨(rest.map PathData.size).sum % U64MOD, OsStr.utf8 ("Total"), ""⟩]
        ∧ ∀ e ∈ rest, e.icon = " " := by
  rw [get_data_ok_eq] at h
  rcases hst : (items.filterMap Except.toOption).foldlM get_data_loop_body ([], 0)
    with e | st
  · rw [hst] at h; exact absurd h (by simp)
  · rw [hst] at h
    simp only [Except.ok.injEq] at h
    obtain ⟨pushed, h1, h2, h3⟩ :=
      loop_ok_structure (items.filterMap Except.toOption) [] 0 st.1 st.2
        U64MOD_pos (by rw [← hst])
    refine ⟨pushed, ?_, h2⟩
    rw [← h, h3]
    simp only [List.nil_append] at h1
    rw [h1]
    simp

/-- C1 counterexample: a target directory holding one child whose
`metadata()` read fails does not get that child skipped — the `?` operator
in `get_data_from_directory` propagates the error, so the call fails
instead of returning a report. -/
theorem get_data_metadata_error_cex :
    get_data_from_directory
        (.ok [.ok ⟨OsStr.utf8 ("child"), .error ("EACCES"), []⟩])
      = .error ("EACCES") := by
  decide

/-- C1 amended: failure to open the target directory is propagated, and a
child the directory iterator itself yields as `Err` is skipped entirely
(no entry, no total contribution, no failure); but a child that is yielded
successfully and whose `metadata()` read then fails is not skipped — its
error is propagated to the caller as well. -/
theorem get_data_error_policy_amended :
    (∀ e : IOErr, get_data_from_directory (.error e) = .error e)
    ∧ (∀ (e : IOErr) (pre post : List (Except IOErr DirEntry)),
        get_data_from_directory (.ok (pre ++ .error e :: post))
          = get_data_from_directory (.ok (pre ++ post)))
    ∧ (∀ (e : IOErr) (name : OsStr) (w : List WalkItem)
        (post : List (Except IOErr DirEntry)),
        get_data_from_directory (.ok (.ok ⟨name, .error e, w⟩ :: post))
          = .error e) := by
  refine ⟨fun e => rfl, ?_, ?_⟩
  · intro e pre post
    rw [get_data_ok_eq, get_data_ok_eq, List.filterMap_append, List.filterMap_append,
      List.filterMap_cons]
    simp [Except.toOption]
  · intro e name w post
    rw [get_data_ok_eq, List.filterMap_cons]
    simp only [Except.toOption, List.foldlM]
    simp [get_data_loop_body, Bind.bind, Except.bind]

/-- C3: whenever `get_data_from_directory` succeeds, the produced report
is the child entries followed by exactly one synthetic `Total` entry (the
only entry with the empty icon), and the `Total` size is the `u64` sum of
all the other entries' sizes — exactly their sum whenever that sum fits in
a `u64`. -/
theorem get_data_total_entry (items : List (Except IOErr DirEntry))
    (data : List PathData)
    (h : get_data_from_directory (.ok items) = .ok data) :
    ∃ rest : List PathData,
      data = rest ++ [⟨(rest.map PathData.size).sum % U64MOD, OsStr.utf8 ("Total"), ""⟩]
        ∧ (data.filter (fun e => e.icon == "")).length = 1
        ∧ ((rest.map PathData.size).sum < U64MOD →
            data = rest ++ [⟨(rest.map PathData.size).sum, OsStr.utf8 ("Total"), ""⟩]) := by
  obtain ⟨rest, h1, h2⟩ := get_data_ok_structure items data h
  refine ⟨rest, h1, ?_, ?_⟩
  · rw [h1, List.filter_append]
    have hrest : rest.filter (fun e => e.icon == "") = [] := by
      rw [List.filter_eq_nil_iff]
      intro e he
      rw [h2 e he]
      decide
    rw [hrest]
    rfl
  · intro hlt
    rw [h1, Nat.mod_eq_of_lt hlt]

/-- Witness for `get_data_total_entry`: a directory with a 500-byte file
and a 2000-byte file. -/
theorem get_data_total_entry_witness :
    ∃ rest : List PathData,
      ([⟨500, OsStr.utf8 ("a"), " "⟩, ⟨2000, OsStr.utf8 ("b"), " "⟩,
          ⟨2500, OsStr.utf8 ("Total"), ""⟩] : List PathData)
          = rest ++ [⟨(rest.map PathData.size).sum % U64MOD, OsStr.utf8 ("Total"), ""⟩]
        ∧ ((([⟨500, OsStr.utf8 ("a"), " "⟩, ⟨2000, OsStr.utf8 ("b"), " "⟩,
            ⟨2500, OsStr.utf8 ("Total"), ""⟩] : List PathData)).filter
              (fun e => e.icon == "")).length = 1
        ∧ ((rest.map PathData.size).sum < U64MOD →
            ([⟨500, OsStr.utf8 ("a"), " "⟩, ⟨2000, OsStr.utf8 ("b"), " "⟩,
                ⟨2500, OsStr.utf8 ("Total"), ""⟩] : List PathData)
              = rest ++ [⟨(rest.map PathData.size).sum, OsStr.utf8 ("Total"), ""⟩]) :=
  get_data_total_entry
    [.ok ⟨OsStr.utf8 ("a"), .ok ⟨false, true, 500⟩, []⟩,
      .ok ⟨OsStr.utf8 ("b"), .ok ⟨false, true, 2000⟩, []⟩]
    [⟨500, OsStr.utf8 ("a"), " "⟩, ⟨2000, OsStr.utf8 ("b"), " "⟩,
      ⟨2500, OsStr.utf8 ("Total"), ""⟩]
    (by decide)

/-! ## Sorting (claim C4) -/

theorem mem_insertByKey (z x : PathData) : ∀ l : List PathData,
    z ∈ insertByKey x l ↔ z = x ∨ z ∈ l := by
  intro l
  induction l with
  | nil => simp [insertByKey]
  | cons y ys ih =>
    unfold insertByKey
    by_cases hc : x.size ≤ y.size
    · simp [hc]
    · rw [if_neg hc]
      simp only [List.mem_cons, ih]
      tauto

theorem pairwise_insertByKey (x : PathData) : ∀ l : List PathData,
    l.Pairwise (fun a b => a.size ≤ b.size) →
    (insertByKey x l).Pairwise (fun a b => a.size ≤ b.size) := by
  intro l
  induction l with
  | nil => intro _; simp [insertByKey]
  | cons y ys ih =>
    intro hp
    rw [List.pairwise_cons] at hp
    obtain ⟨hy, hys⟩ := hp
    unfold insertByKey
    by_cases hc : x.size ≤ y.size
    · rw [if_pos hc, List.pairwise_cons]
      refine ⟨?_, ?_⟩
      · intro z hz
        rcases List.mem_cons.mp hz with h1 | h1
        · rw [h1]; exact hc
        · exact le_trans hc (hy z h1)
      · rw [List.pairwise_cons]; exact ⟨hy, hys⟩
    · rw [if_neg hc, List.pairwise_cons]
      refine ⟨?_, ih hys⟩
      intro z hz
      rcases (mem_insertByKey z x ys).mp hz with h1 | h1
      · rw [h1]; omega
      · exact hy z h1

theorem sort_by_key_pairwise (l : List PathData) :
    (sort_by_key l).Pairwise (fun a b => a.size ≤ b.size) := by
  induction l with
  | nil => simp [sort_by_key]
  | cons x xs ih => exact pairwise_insertByKey x _ ih

theorem filter_sizeEq_insertByKey (s : Nat) (x : PathData) : ∀ l : List PathData,
    (insertByKey x l).filter (fun e => e.size == s)
      = (if x.size == s then [x] else []) ++ l.filter (fun e => e.size == s) := by
  intro l
  induction l with
  | nil => simp [insertByKey, List.filter_cons]
  | cons y ys ih =>
    unfold insertByKey
    by_cases hc : x.size ≤ y.size
    · rw [if_pos hc]
      by_cases hx : x.size = s <;> simp [List.filter_cons, hx]
    · rw [if_neg hc, List.filter_cons, ih]
      by_cases hx : x.size = s
      · have hy : ¬ (y.size = s) := by omega
        simp [hx, hy, List.filter_cons]
      · simp [hx, List.filter_cons]

theorem filter_sizeEq_sort (s : Nat) (l : List PathData) :
    (sort_by_key l).filter (fun e => e.size == s) = l.filter (fun e => e.size == s) := by
  induction l with
  | nil => rfl
  | cons x xs ih =>
    simp only [sort_by_key]
    rw [filter_sizeEq_insertByKey, ih, List.filter_cons]
    by_cases hx : x.size = s
    · simp [hx]
    · simp [hx]

theorem insertByKey_append_big (y x : PathData) (h : y.size ≤ x.size) :
    ∀ m : List PathData, insertByKey y (m ++ [x]) = insertByKey y m ++ [x] := by
  intro m
  induction m with
  | nil => simp [insertByKey, h]
  | cons a m ih =>
    simp only [List.cons_append, insertByKey]
    by_cases hc : y.size ≤ a.size
    · simp [hc]
    · simp [hc, ih]

theorem sort_append_big : ∀ (l : List PathData) (x : PathData),
    (∀ y ∈ l, y.size ≤ x.size) → sort_by_key (l ++ [x]) = sort_by_key l ++ [x] := by
  intro l
  induction l with
  | nil => intro x _; rfl
  | cons z l ih =>
    intro x h
    simp only [List.cons_append, sort_by_key, List.append_eq]
    rw [ih x (fun y hy => h y (List.mem_cons_of_mem z hy))]
    exact insertByKey_append_big z x (h z (List.mem_cons_self z l)) _

theorem size_le_listSum : ∀ (rest : List PathData) (e : PathData), e ∈ rest →
    e.size ≤ (rest.map PathData.size).sum := by
  intro rest
  induction rest with
  | nil => intro e he; exact absurd he (List.not_mem_nil e)
  | cons a l ih =>
    intro e he
    simp only [List.map_cons, List.sum_cons]
    rcases List.mem_cons.mp he with h1 | h1
    · rw [h1]; exact Nat.le_add_right _ _
    · exact le_trans (ih e h1) (Nat.le_add_left _ _)

/-- C4: the sequence `print_data` sorts (the report of
`get_data_from_directory`) is ascending by size; the sort is stable — for
every key the subsequence of entries with that size is preserved exactly —
and whenever the total fits in a `u64` the synthetic `Total` entry, being
appended last with the maximal size, ends up as the last element of the
sorted sequence, so it never precedes a strictly larger entry and follows
every equal-sized one. -/
theorem report_sorted_stable_total_last (items : List (Except IOErr DirEntry))
    (data : List PathData)
    (h : get_data_from_directory (.ok items) = .ok data) :
    (sort_by_key data).Pairwise (fun a b => a.size ≤ b.size)
    ∧ (∀ s : Nat, (sort_by_key data).filter (fun e => e.size == s)
        = data.filter (fun e => e.size == s))
    ∧ ∃ rest : List PathData,
        data = rest ++ [⟨(rest.map PathData.size).sum % U64MOD, OsStr.utf8 ("Total"), ""⟩]
          ∧ ((rest.map PathData.size).sum < U64MOD →
              sort_by_key data
                = sort_by_key rest
                    ++ [⟨(rest.map PathData.size).sum, OsStr.utf8 ("Total"), ""⟩]) := by
  obtain ⟨rest, h1, h2⟩ := get_data_ok_structure items data h
  refine ⟨sort_by_key_pairwise data, fun s => filter_sizeEq_sort s data, rest, h1, ?_⟩
  intro hlt
  rw [h1, Nat.mod_eq_of_lt hlt]
  exact sort_append_big rest _ (fun y hy => size_le_listSum rest y hy)

/-- Witness for `report_sorted_stable_total_last`: a directory with a
2000-byte file listed before a 500-byte file. -/
theorem report_sorted_stable_total_last_witness :
    (sort_by_key [⟨2000, OsStr.utf8 ("b"), " "⟩, ⟨500, OsStr.utf8 ("a"), " "⟩,
        ⟨2500, OsStr.utf8 ("Total"), ""⟩]).Pairwise (fun a b => a.size ≤ b.size)
    ∧ (∀ s : Nat, (sort_by_key [⟨2000, OsStr.utf8 ("b"), " "⟩, ⟨500, OsStr.utf8 ("a"), " "⟩,
          ⟨2500, OsStr.utf8 ("Total"), ""⟩]).filter (fun e => e.size == s)
        = ([⟨2000, OsStr.utf8 ("b"), " "⟩, ⟨500, OsStr.utf8 ("a"), " "⟩,
            ⟨2500, OsStr.utf8 ("Total"), ""⟩] : List PathData).filter (fun e => e.size == s))
    ∧ ∃ rest : List PathData,
        ([⟨2000, OsStr.utf8 ("b"), " "⟩, ⟨500, OsStr.utf8 ("a"), " "⟩,
            ⟨2500, OsStr.utf8 ("Total"), ""⟩] : List PathData)
            = rest ++ [⟨(rest.map PathData.size).sum % U64MOD, OsStr.utf8 ("Total"), ""⟩]
          ∧ ((rest.map PathData.size).sum < U64MOD →
              sort_by_key [⟨2000, OsStr.utf8 ("b"), " "⟩, ⟨500, OsStr.utf8 ("a"), " "⟩,
                  ⟨2500, OsStr.utf8 ("Total"), ""⟩]
                = sort_by_key rest
                    ++ [⟨(rest.map PathData.size).sum, OsStr.utf8 ("Total"), ""⟩]) :=
  report_sorted_stable_total_last
    [.ok ⟨OsStr.utf8 ("b"), .ok ⟨false, true, 2000⟩, []⟩,
      .ok ⟨OsStr.utf8 ("a"), .ok ⟨false, true, 500⟩, []⟩]
    [⟨2000, OsStr.utf8 ("b"), " "⟩, ⟨500, OsStr.utf8 ("a"), " "⟩,
      ⟨2500, OsStr.utf8 ("Total"), ""⟩]
    (by decide)

/-! ## Size formatting (claims C7, C8) -/

theorem digitChar_isDigit (d : Nat) : (digitChar d).isDigit = true := by
  unfold digitChar
  have h : d % 10 < 10 := Nat.mod_lt d (by decide)
  revert h
  generalize d % 10 = r
  intro h
  interval_cases r <;> decide

theorem natDigitsRevFuel_digits : ∀ (fuel n : Nat),
    (natDigitsRevFuel fuel n).all Char.isDigit = true := by
  intro fuel
  induction fuel with
  | zero => intro n; cases n <;> rfl
  | succ f ih =>
    intro n
    cases n with
    | zero => rfl
    | succ m =>
      simp only [natDigitsRevFuel, List.all_cons, Bool.and_eq_true]
      exact ⟨digitChar_isDigit _, ih _⟩

theorem natRepr_digits (n : Nat) : (natRepr n).toList.all Char.isDigit = true := by
  unfold natRepr
  by_cases h : n = 0
  · rw [if_pos h]; decide
  · rw [if_neg h]
    show ((natDigitsRevFuel n n).reverse).all Char.isDigit = true
    have h2 := natDigitsRevFuel_digits n n
    rw [List.all_eq_true] at h2 ⊢
    intro c hc
    exact h2 c (List.mem_reverse.mp hc)

theorem natRepr_ne_empty (n : Nat) : natRepr n ≠ "" := by
  unfold natRepr
  by_cases h : n = 0
  · rw [if_pos h]; decide
  · rw [if_neg h]
    cases n with
    | zero => exact absurd rfl h
    | succ m =>
      intro hcontra
      have h3 : ((natDigitsRevFuel (m + 1) (m + 1)).reverse) = ([] : List Char) := by
        have h4 := congrArg String.data hcontra
        simpa using h4
      rw [List.reverse_eq_nil_iff] at h3
      exact absurd h3 (by simp [natDigitsRevFuel])

theorem pickUnit_mem (size : Nat) : ∀ (us : List String) (k : Nat),
    (pickUnit size k us).2 ∈ us ++ ["YiB"] := by
  intro us
  induction us with
  | nil => intro k; simp [pickUnit]
  | cons u rest ih =>
    intro k
    unfold pickUnit
    by_cases hc : size < 1024 ^ (k + 1)
    · simp [hc]
    · rw [if_neg hc]
      simp only [List.cons_append, List.mem_cons]
      exact Or.inr (ih (k + 1))

/-- C8: for every input, `get_human_readable_size` returns a string of the
form `<digits>.<3 digits> <unit>`: a nonempty all-digit integer part, a
dot, exactly three digits, a space, and a unit drawn from the nine-rung
ladder `B` to `YiB`. -/
theorem format_shape (n : Nat) :
    ∃ a b u : String,
      get_human_readable_size n = a ++ "." ++ b ++ " " ++ u
        ∧ a ≠ "" ∧ a.toList.all Char.isDigit = true
        ∧ b.length = 3 ∧ b.toList.all Char.isDigit = true
        ∧ u ∈ ["B", "KiB", "MiB", "GiB", "TiB", "PiB", "EiB", "ZiB", "YiB"] := by
  refine ⟨natRepr (roundHalfEvenDiv (n * 1000) (1024 ^ (pickUnit n 0 unitLadder).1) / 1000),
    pad3 (roundHalfEvenDiv (n * 1000) (1024 ^ (pickUnit n 0 unitLadder).1) % 1000),
    (pickUnit n 0 unitLadder).2,
    rfl, natRepr_ne_empty _, natRepr_digits _, rfl, ?_, ?_⟩
  · show ([digitChar _, digitChar _, digitChar _] : List Char).all Char.isDigit = true
    simp [digitChar_isDigit]
  · have h := pickUnit_mem n unitLadder 0
    simpa [unitLadder] using h

/-- C7: the boundary behaviour of the size formatter — 0 bytes, 1000 bytes
(still bytes), the exact 1024 boundary (promoted to `KiB`), the exact
`1024 * 1024` boundary (promoted to `MiB`), and in general every value
strictly below 1024 keeps the `B` unit. -/
theorem format_boundaries :
    get_human_readable_size 0 = "0.000 B"
    ∧ get_human_readable_size 1000 = "1000.000 B"
    ∧ get_human_readable_size 1024 = "1.000 KiB"
    ∧ get_human_readable_size (1024 * 1024) = "1.000 MiB"
    ∧ (∀ n : Nat, n < 1024 → get_human_readable_size n = format3 n 0 ++ " " ++ "B") := by
  refine ⟨by decide, by decide, by decide, by decide, ?_⟩
  intro n hn
  have hcond : n < 1024 ^ (0 + 1) := by simpa using hn
  unfold get_human_readable_size unitLadder pickUnit
  rw [if_pos hcond]

/-- Witness for `format_boundaries` at 500 bytes. -/
theorem format_boundaries_witness :
    get_human_readable_size 500 = format3 500 0 ++ " " ++ "B" :=
  format_boundaries.2.2.2.2 500 (by decide)

/-! ## End-to-end empty directory (claim C9) and name rendering (claim C10) -/

/-- C9: an empty target directory yields exactly one entry, the synthetic
`Total` with size 0, and its printed row renders the size as `0.000 B`. -/
theorem empty_dir_report :
    get_data_from_directory (.ok []) = .ok [⟨0, OsStr.utf8 ("Total"), ""⟩]
    ∧ print_data [⟨0, OsStr.utf8 ("Total"), ""⟩] = [["", "Total", "0.000 B"]]
    ∧ get_human_readable_size 0 = "0.000 B" := by
  exact ⟨by decide, by decide, by decide⟩

/-- C10: an entry whose filesystem name is not valid UTF-8 is printed with
the literal `???` in the name cell; the row is still produced in full, so
printing never fails on such a name. -/
theorem print_row_invalid_utf8 (sz : Nat) (icon : String) (bytes : List Nat) :
    print_row ⟨sz, OsStr.invalid bytes, icon⟩
      = [icon, "???", get_human_readable_size sz] := rfl
